import Mathlib

/-!
Verification of the import-resolution and plugin-pipeline subsystem of the
snowpack repository (src/src/plugins.ts, src/src/commands/import-resolver.ts).

The TypeScript source is shallowly embedded: JavaScript objects used as
string-keyed records become association lists, the JavaScript spread idiom
[...new Set(xs)] becomes jsSetDedup (first-occurrence order-preserving
deduplication), fallible evaluation (thrown ReferenceError / TypeError and
the fatal handleError path that calls process.exit) becomes Except, and
the filesystem existence check fs.existsSync becomes a Bool-valued oracle
parameter.
-/

namespace Snowpack

/-! ## JavaScript string methods

The JavaScript string methods the source uses are modeled over the
character list of the string, so that every concrete evaluation reduces
inside the kernel. -/

def charListSplit (sep : Char) : List Char → List (List Char)
  | [] => [[]]
  | c :: cs =>
    let r := charListSplit sep cs
    if c = sep then [] :: r
    else
      match r with
      | [] => [[c]]
      | w :: ws => (c :: w) :: ws

/-- JavaScript `s.split(sep)` for a one-character separator (the source
splits only on ":", "," and "/", and "." for extensions). Like in
JavaScript, the result is never empty: splitting the empty string gives
one empty piece. -/
def jsSplit (s : String) (sep : Char) : List String :=
  (charListSplit sep s.data).map String.mk

/-- JavaScript `s.toLowerCase()` (ASCII, which covers script ids). -/
def jsToLower (s : String) : String :=
  String.mk (s.data.map Char.toLower)

/-- JavaScript `s.trim()`. -/
def jsTrim (s : String) : String :=
  String.mk (((s.data.dropWhile Char.isWhitespace).reverse.dropWhile
    Char.isWhitespace).reverse)

def charListIsPre : List Char → List Char → Bool
  | [], _ => true
  | _ :: _, [] => false
  | a :: as, b :: bs => a == b && charListIsPre as bs

/-- JavaScript `s.startsWith(pre)`. -/
def jsStartsWith (s pre : String) : Bool :=
  charListIsPre pre.data s.data

/-- JavaScript `s.endsWith(suf)`. -/
def jsEndsWith (s suf : String) : Bool :=
  charListIsPre suf.data.reverse s.data.reverse

def jsDrop (s : String) (n : Nat) : String :=
  String.mk (s.data.drop n)

def jsDropRight (s : String) (n : Nat) : String :=
  String.mk (s.data.take (s.data.length - n))

def jsTakeWhile (p : Char → Bool) (s : String) : String :=
  String.mk (s.data.takeWhile p)

def jsLength (s : String) : Nat := s.data.length

/-! ## Data model -/

def jsSetDedupAux (seen : List String) : List String → List String
  | [] => []
  | x :: xs =>
    if x ∈ seen then jsSetDedupAux seen xs
    else x :: jsSetDedupAux (x :: seen) xs

/-- JavaScript `[...new Set(xs)]`: deduplication keeping the first
occurrence of each element, preserving insertion order; `seen` accumulates
the elements already emitted. -/
def jsSetDedup (l : List String) : List String := jsSetDedupAux [] l

/-- A JavaScript string-keyed record (`Record<string, T>`), modeled as an
association list in key insertion order. -/
abbrev JsRecord (α : Type) := List (String × α)

/-- A JavaScript string-keyed record holding extension lists
(`Record<string, string[]>`). -/
abbrev ExtRecord := JsRecord (List String)

/-- Reading `record[k]`: `none` models the value being `undefined`. -/
def alistGet {α : Type} (k : String) : JsRecord α → Option α
  | [] => none
  | (k₂, v) :: rest => if k₂ = k then some v else alistGet k rest

/-- Writing `record[k] = v` (JavaScript keeps the original key position on
overwrite and appends new keys at the end). -/
def alistSet {α : Type} (k : String) (v : α) : JsRecord α → JsRecord α
  | [] => [(k, v)]
  | (k₂, v₂) :: rest => if k₂ = k then (k, v) :: rest else (k₂, v₂) :: alistSet k v rest

/-- The `input`/`output` fields of a SnowpackPlugin have TypeScript type
`string | string[]`. -/
inductive StrOrArr where
  | str (s : String)
  | arr (l : List String)
deriving DecidableEq, Repr

/-- `Array.isArray(x) ? x : [x]`, the normalization applied by the source
before using a plugins input/output field. -/
def StrOrArr.toList : StrOrArr → List String
  | .str s => [s]
  | .arr l => l

/-- SnowpackPlugin (src/src/config.ts lines 71-77): the fields this
subsystem reads. The build/bundle capabilities are opaque and unused by the
embedded functions. -/
structure SnowpackPlugin where
  name : String
  input : StrOrArr
  output : StrOrArr
deriving DecidableEq, Repr

/-- The two lookup tables of src/src/plugins.ts lines 158-161. -/
structure ExtensionMap where
  input : ExtRecord
  output : ExtRecord
deriving DecidableEq, Repr

/-! ## Extension map builder (src/src/plugins.ts lines 158-183) -/

/-- One step of the `inputs.forEach` loop of createPluginExtensionMap
(src/src/plugins.ts lines 171-174): seed `extMap.input[ext]` with `[]` when
absent, then assign the deduplicated concatenation with `outputs`. -/
def updInput (outputs : List String) (m : ExtRecord) (ext : String) : ExtRecord :=
  alistSet ext (jsSetDedup ((alistGet ext m).getD [] ++ outputs)) m

/-- One step of the `outputs.forEach` loop of createPluginExtensionMap
(src/src/plugins.ts lines 177-180): seed `extMap.output[ext]` with `[ext]`
when absent, then assign the deduplicated concatenation with `inputs`. -/
def updOutput (inputs : List String) (m : ExtRecord) (ext : String) : ExtRecord :=
  alistSet ext (jsSetDedup ((alistGet ext m).getD [ext] ++ inputs)) m

/-- The body of the `plugins.forEach` of createPluginExtensionMap
(src/src/plugins.ts lines 166-181). The input table is only written by the
inputs loop and the output table only by the outputs loop, so the two loops
are rendered as independent folds. -/
def processPlugin (m : ExtensionMap) (plugin : SnowpackPlugin) : ExtensionMap :=
  let inputs := plugin.input.toList
  let outputs := plugin.output.toList
  { input := inputs.foldl (updInput outputs) m.input
    output := outputs.foldl (updOutput inputs) m.output }

/-- createPluginExtensionMap (src/src/plugins.ts lines 164-183). The same
code appears inlined in urlToFile (src/src/commands/import-resolver.ts
lines 123-139), character for character. -/
def createPluginExtensionMap (plugins : List SnowpackPlugin) : ExtensionMap :=
  plugins.foldl processPlugin ⟨[], []⟩

/-- Every list stored in a table is duplicate-free. -/
def NodupInv (m : ExtRecord) : Prop :=
  ∀ k v, alistGet k m = some v → v.Nodup

/-- Every list stored in the output table starts with its own key: the
identity seeding `extMap.output[ext] = [ext]` of src/src/plugins.ts line
178 happens on key creation and deduplication keeps first occurrences. -/
def OutHeadInv (m : ExtRecord) : Prop :=
  ∀ k v, alistGet k m = some v → ∃ t, v = k :: t

/-! ## Plugin registry (src/src/plugins.ts lines 3-143) -/

/-- Mirrors the single-extension transformation of parseScript line 15:
backtick-template prepending of a dot, then `.replace(/^\./, ...)` with the
empty string, which removes one leading dot, then `.trim()`. -/
def stripOneLeadingDot (s : String) : String :=
  if jsStartsWith s "." then jsDrop s 1 else s

def parseScriptExt (ext : String) : String :=
  jsTrim (stripOneLeadingDot ("." ++ ext))

/-- parseScript (src/src/plugins.ts lines 11-17): lower-case the id, split
on the colon into script type and extension list, split the latter on
commas, transform each extension and deduplicate. For an id with no colon
the JavaScript code would throw (calling split on undefined); the
embedding treats the extension part as empty there, and no claim involves
such an id. -/
def parseScript (script : String) : String × List String :=
  let parts := jsSplit (jsToLower script) ':'
  let scriptType := parts.headD ""
  let extMatch := parts.getD 1 ""
  (scriptType, jsSetDedup ((jsSplit extMatch ',').map parseScriptExt))

/-- RunCmd (src/src/plugins.ts line 3). -/
structure RunCmd where
  id : String
  cmd : String
deriving DecidableEq, Repr

/-- Thrown JavaScript errors and the fatal handleError path
(console.error followed by process.exit(1), src/src/plugins.ts lines 5-8),
which terminates the whole call. -/
inductive JsErr where
  | referenceError (ident : String)
  | typeError (msg : String)
  | fatal (msg : String)
deriving DecidableEq, Repr

/-- The raw shape of a module loaded by require: the fields the registry
reads. `name = ""` models a falsy/missing name; `none` on input/output
models the field being absent. -/
structure RawPlugin where
  name : String
  input : Option StrOrArr
  output : Option StrOrArr
  defaultBuildScript : Option String
deriving DecidableEq, Repr

/-- The mutable state threaded through the
`Object.entries(config.scripts).forEach` loop of loadPlugins
(src/src/plugins.ts lines 48-99). -/
structure ScriptsState where
  scriptPlugins : JsRecord SnowpackPlugin
  buildCommands : JsRecord RunCmd
  runCommands : List RunCmd
  bundler : Option RawPlugin
deriving DecidableEq, Repr

/-- One iteration of the scripts loop of loadPlugins (src/src/plugins.ts
lines 50-99). `loader` models loadPluginFromScript (lines 32-39): require
wrapped in try/catch, so a load failure is `none` and never a thrown
error. In the `build` case with an already-registered plugin, line 65
destructures `loadPlugins[pluginName]`, a property of the enclosing
function object: for an ordinary plugin name that value is undefined and
JavaScript throws a TypeError (and even for a name colliding with a
built-in Function property, only the two local variables would be
reassigned, never the stored descriptor). -/
def processScript (loader : String → Option RawPlugin) (st : ScriptsState)
    (entry : String × String) : Except JsErr ScriptsState :=
  let target := entry.1
  let cmd := entry.2
  let parsed := parseScript target
  let scriptType := parsed.1
  let extensions := parsed.2
  if scriptType = "run" then
    .ok { st with runCommands := st.runCommands ++ [⟨target, cmd⟩] }
  else if scriptType = "build" then
    let pluginName := cmd
    match loader pluginName with
    | some _plugin =>
      if (alistGet pluginName st.scriptPlugins).isSome then
        .error (.typeError
          "Cannot destructure property input of loadPlugins[pluginName] as it is undefined")
      else
        -- lines 70-75: spread of the loaded plugin with name, input and
        -- output overridden; the spread contributes no field read by this
        -- subsystem, so only the overrides appear
        .ok { st with scriptPlugins := st.scriptPlugins ++
          [(pluginName,
            { name := pluginName, input := .arr extensions, output := .arr extensions })] }
    | none =>
      -- lines 78-81: record the literal command under every extension
      .ok { st with buildCommands :=
        extensions.foldl (fun bc ext => alistSet ext ⟨target, cmd⟩ bc) st.buildCommands }
  else if scriptType = "bundle" then
    match loader cmd with
    | none =>
      .error (.fatal ("Failed to load plugin \"" ++ cmd ++
        "\". Only installed Snowpack Plugins are supported for bundle:*"))
    | some b =>
      -- line 95: if (!bundler.name) bundler.name = bundlerName; note that
      -- a second bundle script simply overwrites the previous bundler
      .ok { st with bundler := some (if b.name = "" then { b with name := cmd } else b) }
  else
    .ok st

/-- One iteration of the `config.plugins.forEach` loop (src/src/plugins.ts
lines 104-135). `configLoader` models loadPluginFromConfig (lines 41-44):
a bare require with no try/catch, so `none` models a thrown module-load
error, which propagates out. Entries are modeled by their plugin name;
options are opaque and unused by the registry logic. Line 129 reads the
identifier `name`, which is declared nowhere (Node has no such global), so
every entry that passes the input check throws a ReferenceError before
being pushed. -/
def processConfigPlugin (configLoader : String → Option RawPlugin)
    (scriptPlugins : JsRecord SnowpackPlugin) (_acc : List SnowpackPlugin)
    (pluginName : String) : Except JsErr (List SnowpackPlugin) :=
  if (alistGet pluginName scriptPlugins).isSome then
    .error (.fatal ("[" ++ pluginName ++
      "]: loaded in both `scripts` and `plugins`. Please choose one (preferably `plugins`)."))
  else
    match configLoader pluginName with
    | none => .error (.typeError ("Cannot find module " ++ pluginName))
    | some plugin =>
      if plugin.defaultBuildScript.isNone && plugin.input.isNone then
        .error (.fatal ("[" ++ pluginName ++ "]: missing input options (see snowpack.dev/plugins)"))
      else
        .error (.referenceError "name")

/-- The record returned by loadPlugins (src/src/plugins.ts lines 22-27,
137-142). -/
structure LoadPluginsResult where
  plugins : List SnowpackPlugin
  bundler : Option RawPlugin
  runCommands : List RunCmd
  buildCommands : JsRecord RunCmd
deriving DecidableEq, Repr

/-- loadPlugins (src/src/plugins.ts lines 20-143): the scripts loop, then
`plugins.push(...Object.values(scriptPlugins))` (line 101), then the
config.plugins loop. `scripts` is Object.entries(config.scripts) in
insertion order; `configPlugins` is config.plugins reduced to names. -/
def loadPlugins (loader configLoader : String → Option RawPlugin)
    (scripts : List (String × String)) (configPlugins : List String) :
    Except JsErr LoadPluginsResult := do
  let st ← scripts.foldlM (processScript loader) ⟨[], [], [], none⟩
  let fromScripts := st.scriptPlugins.map (fun e => e.2)
  let plugins ← configPlugins.foldlM (processConfigPlugin configLoader st.scriptPlugins) fromScripts
  return ⟨plugins, st.bundler, st.runCommands, st.buildCommands⟩

/-! ## Import resolver (src/src/commands/import-resolver.ts lines 61-107) -/

def isWordChar (c : Char) : Bool := c.isAlphanum || c == '_'

/-- URL_HAS_PROTOCOL_REGEX (src/src/commands/import-resolver.ts line 7),
the anchored regular expression: an optional scheme of one or more word
characters followed by a colon, then two slashes. -/
def matchesProtocolRegex (s : String) : Bool :=
  jsStartsWith s "//" ||
    (let scheme := jsTakeWhile isWordChar s
     decide (0 < jsLength scheme) && jsStartsWith (jsDrop s (jsLength scheme)) "://")

/-- ImportResolverOptions (src/src/commands/import-resolver.ts lines
9-16); the config is reduced to the one field the function body reads. -/
structure ImportResolverOptions where
  fileLoc : String
  webModulesPath : String
  dependencyImportMap : Option (JsRecord String)
  isDev : Bool
  isBundled : Bool
  baseUrl : String
deriving DecidableEq, Repr

/-- createImportResolver / importResolver (src/src/commands/import-resolver.ts
lines 61-107). `.ok (some s)` models returning a string and `.ok none`
would model the `false` sentinel. After the protocol passthrough (lines
70-72), line 76 reads `matchedDir`, an identifier declared nowhere in the
file, so every non-protocol specifier makes JavaScript throw
`ReferenceError: matchedDir is not defined`; the rest of the function
(the mount rewrite, the path-like branch, the import-map branch with its
proxy suffixing at lines 99-103, and the final `return false`) is
unreachable, and the options are never consulted. -/
def createImportResolver (_opts : ImportResolverOptions) :
    String → Except JsErr (Option String) :=
  fun spec =>
    if matchesProtocolRegex spec then .ok (some spec)
    else .error (.referenceError "matchedDir")

/-! ## URL-to-file resolver (src/src/commands/import-resolver.ts lines 110-158) -/

/-- Modelled from the spec: getExt from src/util.ts, imported at
src/src/commands/import-resolver.ts line 5 but not present under src/.
Per the spec it splits a URL into its base extension and any expanded
extension: `.module.css` has base `.css` and expanded `.module.css`; a
name with a single dot has only a base extension; `""` models a missing
extension. -/
def getExt (url : String) : String × String :=
  let fileName := ((jsSplit url '/').reverse).headD url
  match (jsSplit fileName '.').reverse with
  | [] => ("", "")
  | [_] => ("", "")
  | [ext, _] => ("." ++ ext, "")
  | ext :: ext₂ :: _ :: _ => ("." ++ ext, "." ++ ext₂ ++ "." ++ ext)

/-- Modelled from the spec: replaceExt from src/util.ts (not under src/):
substitutes the URL base extension with the given candidate extension. -/
def replaceExt (url ext : String) : String :=
  let baseExt := (getExt url).1
  if baseExt = "" then url else jsDropRight url (jsLength baseExt) ++ ext

/-- `expandedExt || baseExt` (src/src/commands/import-resolver.ts line
147): the extension used as lookup key into the output table. -/
def lookupKeyOf (url : String) : String :=
  if (getExt url).2 = "" then (getExt url).1 else (getExt url).2

/-- Model of the external Node path.join at
src/src/commands/import-resolver.ts line 148: two segments joined with a
single separator. -/
def joinSeg (a b : String) : String :=
  if a = "" then b
  else if b = "" then a
  else if jsEndsWith a "/" then
    (if jsStartsWith b "/" then a ++ jsDrop b 1 else a ++ b)
  else (if jsStartsWith b "/" then a ++ b else a ++ "/" ++ b)

def pathJoin3 (a b c : String) : String := joinSeg (joinSeg a b) c

/-- The candidate disk paths urlToFile constructs for one mounted
directory (line 148): each candidate extension substituted into the URL,
joined under cwd and the directory disk prefix. -/
def candidatePaths (cwd fromDisk url : String) (es : List String) : List String :=
  es.map (fun ext => pathJoin3 cwd fromDisk (replaceExt url ext))

/-- The inner `for (const ext of ...)` loop of urlToFile
(src/src/commands/import-resolver.ts lines 147-154) for one mounted
directory: push each candidate path into lookups, stopping (break, line
152) at the first that exists. Returns the hit, if any, together with the
paths attempted for this directory. fsExists models fs.existsSync. -/
def tryExts (fsExists : String → Bool) (cwd fromDisk url : String) :
    List String → Option String × List String
  | [] => (none, [])
  | ext :: rest =>
    let locationAttempt := pathJoin3 cwd fromDisk (replaceExt url ext)
    if fsExists locationAttempt then (some locationAttempt, [locationAttempt])
    else
      let r := tryExts fsExists cwd fromDisk url rest
      (r.1, locationAttempt :: r.2)

/-- The outer `for (const [fromDisk] of possibleDirs)` loop of urlToFile
(lines 146-155). Each iteration reads `extMap.output[expandedExt ||
baseExt]`; when that key is absent the value is undefined and the for-of
header throws a TypeError (`exts = none` here); with no matching directory
the expression is never evaluated and no error occurs. The break of line
152 leaves only the inner loop, so a later directory with a hit overwrites
`locOnDisk` (the recursive result is preferred), while `lookups` keeps
accumulating across directories. -/
def urlToFileDirs (fsExists : String → Bool) (cwd url : String)
    (exts : Option (List String)) :
    List (String × String) → Except JsErr (Option String × List String)
  | [] => .ok (none, [])
  | (fromDisk, _) :: rest =>
    match exts with
    | none => .error (.typeError "extMap.output[expandedExt || baseExt] is not iterable")
    | some es =>
      let r := tryExts fsExists cwd fromDisk url es
      match urlToFileDirs fsExists cwd url (some es) rest with
      | .error e => .error e
      | .ok (foundRest, lookupsRest) =>
        .ok (foundRest.orElse (fun _ => r.1), r.2 ++ lookupsRest)

/-- urlToFile (src/src/commands/import-resolver.ts lines 110-158). The
plugin loading of line 114 and the mount-table parsing of line 115 involve
module loading and config parsing, so the plugin list and the mount table
(entries fromDisk to toUrl, in insertion order) are parameters. Lines
123-139 rebuild the extension map with code identical to
createPluginExtensionMap, rendered by reusing that definition. -/
def urlToFile (fsExists : String → Bool) (plugins : List SnowpackPlugin)
    (mountedDirs : List (String × String)) (cwd url : String) :
    Except JsErr (Option String × List String) :=
  let extMap := createPluginExtensionMap plugins
  let possibleDirs := mountedDirs.filter (fun e => jsStartsWith url e.2)
  urlToFileDirs fsExists cwd url (alistGet (lookupKeyOf url) extMap.output) possibleDirs

/-! ## Lemmas: deduplication and records -/

@[simp] theorem jsSetDedup_nil : jsSetDedup [] = [] := rfl

theorem jsSetDedup_cons (x : String) (xs : List String) :
    jsSetDedup (x :: xs) = x :: jsSetDedupAux [x] xs := by
  simp [jsSetDedup, jsSetDedupAux]

theorem mem_jsSetDedupAux {a : String} :
    ∀ (l seen : List String), a ∈ jsSetDedupAux seen l ↔ (a ∈ l ∧ a ∉ seen) := by
  intro l
  induction l with
  | nil => intro seen; simp [jsSetDedupAux]
  | cons x xs ih =>
    intro seen
    by_cases hx : x ∈ seen
    · rw [jsSetDedupAux, if_pos hx, ih]
      by_cases hax : a = x
      · subst hax
        simp [hx]
      · simp [hax]
    · rw [jsSetDedupAux, if_neg hx]
      simp only [List.mem_cons, ih, List.mem_cons]
      by_cases hax : a = x
      · subst hax
        simp [hx]
      · simp [hax]

theorem mem_jsSetDedup {a : String} {l : List String} : a ∈ jsSetDedup l ↔ a ∈ l := by
  unfold jsSetDedup
  rw [mem_jsSetDedupAux]
  simp

theorem nodup_jsSetDedupAux : ∀ (l seen : List String), (jsSetDedupAux seen l).Nodup := by
  intro l
  induction l with
  | nil => intro seen; simp [jsSetDedupAux]
  | cons x xs ih =>
    intro seen
    by_cases hx : x ∈ seen
    · rw [jsSetDedupAux, if_pos hx]
      exact ih seen
    · rw [jsSetDedupAux, if_neg hx]
      refine List.nodup_cons.mpr ⟨?_, ih (x :: seen)⟩
      intro hmem
      exact ((mem_jsSetDedupAux xs (x :: seen)).mp hmem).2 (by simp)

theorem nodup_jsSetDedup (l : List String) : (jsSetDedup l).Nodup :=
  nodup_jsSetDedupAux l []

@[simp] theorem alistGet_nil {α : Type} (k : String) : alistGet k ([] : JsRecord α) = none := rfl

theorem alistGet_alistSet_self {α : Type} (k : String) (v : α) :
    ∀ (m : JsRecord α), alistGet k (alistSet k v m) = some v := by
  intro m
  induction m with
  | nil => simp [alistSet, alistGet]
  | cons hd tl ih =>
    obtain ⟨k₂, v₂⟩ := hd
    by_cases h : k₂ = k <;> simp [alistSet, alistGet, h, ih]

theorem alistGet_alistSet_ne {α : Type} {k k₂ : String} (h : k₂ ≠ k) (v : α) :
    ∀ (m : JsRecord α), alistGet k₂ (alistSet k v m) = alistGet k₂ m := by
  intro m
  have hk : k ≠ k₂ := Ne.symm h
  induction m with
  | nil => simp [alistSet, alistGet, hk]
  | cons hd tl ih =>
    obtain ⟨k₃, v₃⟩ := hd
    by_cases h₃ : k₃ = k
    · subst h₃
      simp [alistSet, alistGet, hk]
    · simp [alistSet, alistGet, h₃, ih]

/-! ## Lemmas: the extension map -/

theorem mem_updInput_preserve {a k : String} (outs : List String) (ext : String)
    (m : ExtRecord) (h : a ∈ (alistGet k m).getD []) :
    a ∈ (alistGet k (updInput outs m ext)).getD [] := by
  unfold updInput
  by_cases he : ext = k
  · subst he
    rw [alistGet_alistSet_self]
    simp only [Option.getD_some]
    exact mem_jsSetDedup.mpr (List.mem_append_left _ h)
  · rw [alistGet_alistSet_ne (fun hk => he hk.symm)]
    exact h

theorem mem_updOutput_preserve {a k : String} (ins : List String) (ext : String)
    (m : ExtRecord) (h : a ∈ (alistGet k m).getD []) :
    a ∈ (alistGet k (updOutput ins m ext)).getD [] := by
  unfold updOutput
  by_cases he : ext = k
  · subst he
    rw [alistGet_alistSet_self]
    cases hv : alistGet ext m with
    | none => rw [hv] at h; simp at h
    | some v =>
      rw [hv] at h
      simp only [Option.getD_some] at h ⊢
      exact mem_jsSetDedup.mpr (List.mem_append_left _ h)
  · rw [alistGet_alistSet_ne (fun hk => he hk.symm)]
    exact h

theorem mem_foldl_updInput_preserve {a k : String} (outs : List String) :
    ∀ (ins : List String) (m : ExtRecord), a ∈ (alistGet k m).getD [] →
      a ∈ (alistGet k (ins.foldl (updInput outs) m)).getD []
  | [], _, h => h
  | e :: rest, m, h =>
    mem_foldl_updInput_preserve outs rest (updInput outs m e) (mem_updInput_preserve outs e m h)

theorem mem_foldl_updOutput_preserve {a k : String} (ins : List String) :
    ∀ (outs : List String) (m : ExtRecord), a ∈ (alistGet k m).getD [] →
      a ∈ (alistGet k (outs.foldl (updOutput ins) m)).getD []
  | [], _, h => h
  | e :: rest, m, h =>
    mem_foldl_updOutput_preserve ins rest (updOutput ins m e) (mem_updOutput_preserve ins e m h)

theorem mem_foldl_updInput_add {a k : String} (outs : List String) (ha : a ∈ outs) :
    ∀ (ins : List String) (m : ExtRecord), k ∈ ins →
      a ∈ (alistGet k (ins.foldl (updInput outs) m)).getD [] := by
  intro ins
  induction ins with
  | nil => intro m h; simp at h
  | cons e rest ih =>
    intro m hk
    simp only [List.foldl_cons]
    by_cases he : k = e
    · subst he
      apply mem_foldl_updInput_preserve
      unfold updInput
      rw [alistGet_alistSet_self]
      simp only [Option.getD_some]
      exact mem_jsSetDedup.mpr (List.mem_append_right _ ha)
    · exact ih _ ((List.mem_cons.mp hk).resolve_left he)

theorem mem_foldl_updOutput_add {a k : String} (ins : List String) (ha : a ∈ ins) :
    ∀ (outs : List String) (m : ExtRecord), k ∈ outs →
      a ∈ (alistGet k (outs.foldl (updOutput ins) m)).getD [] := by
  intro outs
  induction outs with
  | nil => intro m h; simp at h
  | cons e rest ih =>
    intro m hk
    simp only [List.foldl_cons]
    by_cases he : k = e
    · subst he
      apply mem_foldl_updOutput_preserve
      unfold updOutput
      rw [alistGet_alistSet_self]
      simp only [Option.getD_some]
      exact mem_jsSetDedup.mpr (List.mem_append_right _ ha)
    · exact ih _ ((List.mem_cons.mp hk).resolve_left he)

/-- Every value stored in the input table of the extension map is preserved
when further plugins are folded in. -/
theorem mem_foldl_processPlugin_input_preserve {a k : String} :
    ∀ (l : List SnowpackPlugin) (m : ExtensionMap), a ∈ (alistGet k m.input).getD [] →
      a ∈ (alistGet k (l.foldl processPlugin m).input).getD []
  | [], _, h => h
  | q :: rest, m, h =>
    mem_foldl_processPlugin_input_preserve rest (processPlugin m q)
      (mem_foldl_updInput_preserve _ _ _ h)

theorem mem_foldl_processPlugin_output_preserve {a k : String} :
    ∀ (l : List SnowpackPlugin) (m : ExtensionMap), a ∈ (alistGet k m.output).getD [] →
      a ∈ (alistGet k (l.foldl processPlugin m).output).getD []
  | [], _, h => h
  | q :: rest, m, h =>
    mem_foldl_processPlugin_output_preserve rest (processPlugin m q)
      (mem_foldl_updOutput_preserve _ _ _ h)

theorem mem_foldl_processPlugin_add {p : SnowpackPlugin} {i o : String}
    (hi : i ∈ p.input.toList) (ho : o ∈ p.output.toList) :
    ∀ (l : List SnowpackPlugin) (m : ExtensionMap), p ∈ l →
      o ∈ (alistGet i (l.foldl processPlugin m).input).getD [] ∧
      i ∈ (alistGet o (l.foldl processPlugin m).output).getD [] := by
  intro l
  induction l with
  | nil => intro m h; simp at h
  | cons q rest ih =>
    intro m hmem
    simp only [List.foldl_cons]
    rcases List.mem_cons.mp hmem with rfl | htl
    · constructor
      · exact mem_foldl_processPlugin_input_preserve rest _
          (mem_foldl_updInput_add _ ho _ _ hi)
      · exact mem_foldl_processPlugin_output_preserve rest _
          (mem_foldl_updOutput_add _ hi _ _ ho)
    · exact ih _ htl

/-- The cross-product membership of createPluginExtensionMap: every
(input, output) pair of every plugin lands in both tables. -/
theorem createPluginExtensionMap_mem {p : SnowpackPlugin} {i o : String}
    (plugins : List SnowpackPlugin) (hp : p ∈ plugins)
    (hi : i ∈ p.input.toList) (ho : o ∈ p.output.toList) :
    o ∈ (alistGet i (createPluginExtensionMap plugins).input).getD [] ∧
    i ∈ (alistGet o (createPluginExtensionMap plugins).output).getD [] :=
  mem_foldl_processPlugin_add hi ho plugins ⟨[], []⟩ hp

theorem nodupInv_updInput (outs : List String) (ext : String) (m : ExtRecord)
    (h : NodupInv m) : NodupInv (updInput outs m ext) := by
  intro k v hv
  unfold updInput at hv
  by_cases he : ext = k
  · subst he
    rw [alistGet_alistSet_self] at hv
    cases hv
    exact nodup_jsSetDedup _
  · rw [alistGet_alistSet_ne (fun hk => he hk.symm)] at hv
    exact h k v hv

theorem nodupInv_updOutput (ins : List String) (ext : String) (m : ExtRecord)
    (h : NodupInv m) : NodupInv (updOutput ins m ext) := by
  intro k v hv
  unfold updOutput at hv
  by_cases he : ext = k
  · subst he
    rw [alistGet_alistSet_self] at hv
    cases hv
    exact nodup_jsSetDedup _
  · rw [alistGet_alistSet_ne (fun hk => he hk.symm)] at hv
    exact h k v hv

theorem nodupInv_foldl_updInput (outs : List String) :
    ∀ (ins : List String) (m : ExtRecord), NodupInv m →
      NodupInv (ins.foldl (updInput outs) m)
  | [], _, h => h
  | e :: rest, m, h =>
    nodupInv_foldl_updInput outs rest (updInput outs m e) (nodupInv_updInput outs e m h)

theorem nodupInv_foldl_updOutput (ins : List String) :
    ∀ (outs : List String) (m : ExtRecord), NodupInv m →
      NodupInv (outs.foldl (updOutput ins) m)
  | [], _, h => h
  | e :: rest, m, h =>
    nodupInv_foldl_updOutput ins rest (updOutput ins m e) (nodupInv_updOutput ins e m h)

theorem nodupInv_foldl_processPlugin :
    ∀ (l : List SnowpackPlugin) (m : ExtensionMap), NodupInv m.input → NodupInv m.output →
      NodupInv (l.foldl processPlugin m).input ∧ NodupInv (l.foldl processPlugin m).output
  | [], _, h₁, h₂ => ⟨h₁, h₂⟩
  | q :: rest, m, h₁, h₂ =>
    nodupInv_foldl_processPlugin rest (processPlugin m q)
      (nodupInv_foldl_updInput _ _ _ h₁) (nodupInv_foldl_updOutput _ _ _ h₂)

/-- Both tables of createPluginExtensionMap hold duplicate-free lists. -/
theorem createPluginExtensionMap_nodup (plugins : List SnowpackPlugin) :
    NodupInv (createPluginExtensionMap plugins).input ∧
    NodupInv (createPluginExtensionMap plugins).output :=
  nodupInv_foldl_processPlugin plugins ⟨[], []⟩
    (fun k v hv => by simp [alistGet] at hv) (fun k v hv => by simp [alistGet] at hv)

theorem outHeadInv_updOutput (ins : List String) (ext : String) (m : ExtRecord)
    (h : OutHeadInv m) : OutHeadInv (updOutput ins m ext) := by
  intro k v hv
  unfold updOutput at hv
  by_cases he : ext = k
  · subst he
    rw [alistGet_alistSet_self] at hv
    cases hov : alistGet ext m with
    | none =>
      rw [hov] at hv
      simp only [Option.getD_none] at hv
      cases hv
      exact ⟨_, jsSetDedup_cons ext ins⟩
    | some w =>
      obtain ⟨t, rfl⟩ := h ext w hov
      rw [hov] at hv
      simp only [Option.getD_some, List.cons_append] at hv
      cases hv
      exact ⟨_, jsSetDedup_cons ext (t ++ ins)⟩
  · rw [alistGet_alistSet_ne (fun hk => he hk.symm)] at hv
    exact h k v hv

theorem outHeadInv_foldl_updOutput (ins : List String) :
    ∀ (outs : List String) (m : ExtRecord), OutHeadInv m →
      OutHeadInv (outs.foldl (updOutput ins) m)
  | [], _, h => h
  | e :: rest, m, h =>
    outHeadInv_foldl_updOutput ins rest (updOutput ins m e) (outHeadInv_updOutput ins e m h)

theorem outHeadInv_foldl_processPlugin :
    ∀ (l : List SnowpackPlugin) (m : ExtensionMap), OutHeadInv m.output →
      OutHeadInv (l.foldl processPlugin m).output
  | [], _, h => h
  | q :: rest, m, h =>
    outHeadInv_foldl_processPlugin rest (processPlugin m q)
      (outHeadInv_foldl_updOutput _ _ _ h)

theorem isSome_updOutput_preserve {k : String} (ins : List String) (ext : String)
    (m : ExtRecord) (h : (alistGet k m).isSome) :
    (alistGet k (updOutput ins m ext)).isSome := by
  unfold updOutput
  by_cases he : ext = k
  · subst he
    rw [alistGet_alistSet_self]
    rfl
  · rw [alistGet_alistSet_ne (fun hk => he hk.symm)]
    exact h

theorem isSome_foldl_updOutput_preserve {k : String} (ins : List String) :
    ∀ (outs : List String) (m : ExtRecord), (alistGet k m).isSome →
      (alistGet k (outs.foldl (updOutput ins) m)).isSome
  | [], _, h => h
  | e :: rest, m, h =>
    isSome_foldl_updOutput_preserve ins rest (updOutput ins m e)
      (isSome_updOutput_preserve ins e m h)

theorem isSome_foldl_updOutput_add {k : String} (ins : List String) :
    ∀ (outs : List String) (m : ExtRecord), k ∈ outs →
      (alistGet k (outs.foldl (updOutput ins) m)).isSome := by
  intro outs
  induction outs with
  | nil => intro m h; simp at h
  | cons e rest ih =>
    intro m hk
    simp only [List.foldl_cons]
    by_cases he : k = e
    · subst he
      apply isSome_foldl_updOutput_preserve
      unfold updOutput
      rw [alistGet_alistSet_self]
      rfl
    · exact ih _ ((List.mem_cons.mp hk).resolve_left he)

theorem isSome_foldl_processPlugin_preserve {k : String} :
    ∀ (l : List SnowpackPlugin) (m : ExtensionMap), (alistGet k m.output).isSome →
      (alistGet k (l.foldl processPlugin m).output).isSome
  | [], _, h => h
  | q :: rest, m, h =>
    isSome_foldl_processPlugin_preserve rest (processPlugin m q)
      (isSome_foldl_updOutput_preserve _ _ _ h)

theorem isSome_foldl_processPlugin_add {p : SnowpackPlugin} {o : String}
    (ho : o ∈ p.output.toList) :
    ∀ (l : List SnowpackPlugin) (m : ExtensionMap), p ∈ l →
      (alistGet o (l.foldl processPlugin m).output).isSome := by
  intro l
  induction l with
  | nil => intro m h; simp at h
  | cons q rest ih =>
    intro m hmem
    simp only [List.foldl_cons]
    rcases List.mem_cons.mp hmem with rfl | htl
    · exact isSome_foldl_processPlugin_preserve rest _
        (isSome_foldl_updOutput_add _ _ _ ho)
    · exact ih _ htl

/-- The head of `output[o]` is `o` itself whenever some plugin declares the
output extension `o`. -/
theorem createPluginExtensionMap_output_head {o : String}
    (plugins : List SnowpackPlugin) (p : SnowpackPlugin) (hp : p ∈ plugins)
    (ho : o ∈ p.output.toList) :
    ∃ t, alistGet o (createPluginExtensionMap plugins).output = some (o :: t) := by
  have hsome := isSome_foldl_processPlugin_add ho plugins ⟨[], []⟩ hp
  have hinv : OutHeadInv (createPluginExtensionMap plugins).output :=
    outHeadInv_foldl_processPlugin plugins ⟨[], []⟩
      (fun k v hv => by simp [alistGet] at hv)
  unfold createPluginExtensionMap
  obtain ⟨v, hv⟩ := Option.isSome_iff_exists.mp hsome
  obtain ⟨t, rfl⟩ := hinv o v hv
  exact ⟨t, hv⟩

/-! ## Lemmas: the URL-to-file resolver -/

theorem orElse_none_right {α : Type} (o : Option α) :
    (o.orElse fun _ => none) = o := by
  cases o <;> rfl

theorem getLast?_cons_eq_orElse {α : Type} (a : α) (l : List α) :
    (a :: l).getLast? = l.getLast?.orElse (fun _ => some a) := by
  cases l with
  | nil => rfl
  | cons b t =>
    rw [List.getLast?_cons_cons]
    cases h : (b :: t).getLast? with
    | none =>
      have : ((b :: t).getLast?).isSome = true := List.getLast?_isSome.mpr (by simp)
      rw [h] at this
      simp at this
    | some x => rfl

/-- The hit of the per-directory loop is the first candidate path that
exists, in candidate-extension order. -/
theorem tryExts_fst (fsExists : String → Bool) (cwd fromDisk url : String) :
    ∀ (es : List String),
      (tryExts fsExists cwd fromDisk url es).1 =
        (candidatePaths cwd fromDisk url es).find? fsExists := by
  intro es
  induction es with
  | nil => rfl
  | cons ext rest ih =>
    by_cases h : fsExists (pathJoin3 cwd fromDisk (replaceExt url ext))
    · simp [tryExts, candidatePaths, h, List.find?_cons_of_pos]
    · simp only [tryExts, candidatePaths, List.map_cons, h, if_neg, Bool.false_eq_true,
        not_false_eq_true, List.find?_cons_of_neg, ite_false]
      exact ih

/-- The paths attempted by the per-directory loop: every candidate that
does not exist, up to and including the first that does. -/
theorem tryExts_snd (fsExists : String → Bool) (cwd fromDisk url : String) :
    ∀ (es : List String),
      (tryExts fsExists cwd fromDisk url es).2 =
        (candidatePaths cwd fromDisk url es).takeWhile (fun x => !fsExists x) ++
          ((candidatePaths cwd fromDisk url es).find? fsExists).toList := by
  intro es
  induction es with
  | nil => rfl
  | cons ext rest ih =>
    simp only [candidatePaths, List.map_cons] at ih ⊢
    by_cases h : fsExists (pathJoin3 cwd fromDisk (replaceExt url ext))
    · have ht : List.takeWhile (fun x => !fsExists x)
          (pathJoin3 cwd fromDisk (replaceExt url ext) ::
            List.map (fun e => pathJoin3 cwd fromDisk (replaceExt url e)) rest) = [] :=
        List.takeWhile_cons_of_neg (by simp [h])
      rw [List.find?_cons_of_pos _ h, ht]
      simp [tryExts, h]
    · have ht : List.takeWhile (fun x => !fsExists x)
          (pathJoin3 cwd fromDisk (replaceExt url ext) ::
            List.map (fun e => pathJoin3 cwd fromDisk (replaceExt url e)) rest) =
          pathJoin3 cwd fromDisk (replaceExt url ext) ::
            List.takeWhile (fun x => !fsExists x)
              (List.map (fun e => pathJoin3 cwd fromDisk (replaceExt url e)) rest) :=
        List.takeWhile_cons_of_pos (by simp [h])
      rw [List.find?_cons_of_neg _ h, ht]
      simp only [tryExts, h, ite_false, Bool.false_eq_true, List.cons_append]
      rw [ih]

/-- The first path the per-directory loop attempts is the candidate built
from the first candidate extension. -/
theorem tryExts_snd_head (fsExists : String → Bool) (cwd fromDisk url e : String)
    (es : List String) :
    (tryExts fsExists cwd fromDisk url (e :: es)).2.head? =
      some (pathJoin3 cwd fromDisk (replaceExt url e)) := by
  by_cases h : fsExists (pathJoin3 cwd fromDisk (replaceExt url e)) <;>
    simp [tryExts, h]

/-- Characterization of the outer loop when the extension lookup key is
present: no error, locOnDisk is the hit of the last mounted directory that
has one, and lookups concatenates every per-directory attempt list. -/
theorem urlToFileDirs_ok (fsExists : String → Bool) (cwd url : String) (es : List String) :
    ∀ (dirs : List (String × String)),
      urlToFileDirs fsExists cwd url (some es) dirs =
        .ok ((dirs.filterMap (fun d => (tryExts fsExists cwd d.1 url es).1)).getLast?,
             (dirs.map (fun d => (tryExts fsExists cwd d.1 url es).2)).flatten) := by
  intro dirs
  induction dirs with
  | nil => rfl
  | cons d rest ih =>
    obtain ⟨fromDisk, toUrl⟩ := d
    simp only [urlToFileDirs, ih, List.filterMap_cons, List.map_cons, List.flatten_cons]
    cases hr : (tryExts fsExists cwd fromDisk url es).1 with
    | none => simp [orElse_none_right]
    | some x => simp [getLast?_cons_eq_orElse]

theorem urlToFileDirs_invariant (fsExists : String → Bool) (cwd url : String)
    (es : List String) :
    ∀ (dirs : List (String × String)) (found : Option String) (lookups : List String),
      urlToFileDirs fsExists cwd url (some es) dirs = .ok (found, lookups) →
      ((∀ loc, found = some loc → loc ∈ lookups ∧ fsExists loc = true) ∧
       (found = none → ∀ l ∈ lookups, fsExists l = false)) := by
  intro dirs
  induction dirs with
  | nil =>
    intro found lookups h
    simp only [urlToFileDirs, Except.ok.injEq, Prod.mk.injEq] at h
    obtain ⟨rfl, rfl⟩ := h
    exact ⟨fun loc hl => by simp at hl, fun _ => by simp⟩
  | cons d rest ih =>
    obtain ⟨fromDisk, toUrl⟩ := d
    intro found lookups h
    rw [urlToFileDirs] at h
    cases hrec : urlToFileDirs fsExists cwd url (some es) rest with
    | error e => rw [hrec] at h; simp at h
    | ok pr =>
      obtain ⟨foundRest, lookupsRest⟩ := pr
      rw [hrec] at h
      simp only [Except.ok.injEq, Prod.mk.injEq] at h
      obtain ⟨hfound, hlook⟩ := h
      obtain ⟨ih₁, ih₂⟩ := ih foundRest lookupsRest hrec
      subst hlook
      constructor
      · intro loc hl
        subst hfound
        cases hfr : foundRest with
        | some x =>
          rw [hfr] at hl
          simp only [Option.orElse, Option.some.injEq] at hl
          subst hl
          obtain ⟨hmem, hex⟩ := ih₁ x hfr
          exact ⟨List.mem_append_right _ hmem, hex⟩
        | none =>
          rw [hfr] at hl
          simp only [Option.orElse] at hl
          rw [tryExts_fst] at hl
          refine ⟨List.mem_append_left _ ?_, List.find?_some hl⟩
          rw [tryExts_snd, hl]
          exact List.mem_append_right _ (by simp)
      · intro h0 l hl
        subst hfound
        cases hfr : foundRest with
        | some x => rw [hfr] at h0; simp [Option.orElse] at h0
        | none =>
          rw [hfr] at h0
          simp only [Option.orElse] at h0
          rcases List.mem_append.mp hl with hl₁ | hl₂
          · rw [tryExts_snd] at hl₁
            rw [tryExts_fst] at h0
            rw [h0] at hl₁
            simp only [Option.toList_none, List.append_nil] at hl₁
            have := List.mem_takeWhile_imp hl₁
            simpa using this
          · exact ih₂ hfr l hl₂

/-! ## Claims -/

/-- Claim C1: for every list of plugins, for every plugin P in it, every
input extension i of P and output extension o of P satisfy
o ∈ map.input[i] and i ∈ map.output[o] in the map returned by
createPluginExtensionMap, and every list stored in either table is
duplicate-free. -/
theorem spec_C1_extension_map_cross_product (plugins : List SnowpackPlugin)
    (p : SnowpackPlugin) (i o : String) (hp : p ∈ plugins)
    (hi : i ∈ p.input.toList) (ho : o ∈ p.output.toList) :
    o ∈ (alistGet i (createPluginExtensionMap plugins).input).getD [] ∧
    i ∈ (alistGet o (createPluginExtensionMap plugins).output).getD [] ∧
    NodupInv (createPluginExtensionMap plugins).input ∧
    NodupInv (createPluginExtensionMap plugins).output := by
  obtain ⟨h₁, h₂⟩ := createPluginExtensionMap_mem plugins hp hi ho
  obtain ⟨h₃, h₄⟩ := createPluginExtensionMap_nodup plugins
  exact ⟨h₁, h₂, h₃, h₄⟩

/-- Claim C1 witness: the cross-product property evaluated on a concrete
one-plugin list (a svelte-style plugin with one input and two outputs). -/
theorem spec_C1_witness :
    ".css" ∈ (alistGet ".svelte" (createPluginExtensionMap
      [⟨"plugin-svelte", StrOrArr.str ".svelte", StrOrArr.arr [".js", ".css"]⟩]).input).getD [] ∧
    ".svelte" ∈ (alistGet ".css" (createPluginExtensionMap
      [⟨"plugin-svelte", StrOrArr.str ".svelte", StrOrArr.arr [".js", ".css"]⟩]).output).getD [] ∧
    NodupInv (createPluginExtensionMap
      [⟨"plugin-svelte", StrOrArr.str ".svelte", StrOrArr.arr [".js", ".css"]⟩]).input ∧
    NodupInv (createPluginExtensionMap
      [⟨"plugin-svelte", StrOrArr.str ".svelte", StrOrArr.arr [".js", ".css"]⟩]).output :=
  spec_C1_extension_map_cross_product
    [⟨"plugin-svelte", StrOrArr.str ".svelte", StrOrArr.arr [".js", ".css"]⟩]
    ⟨"plugin-svelte", StrOrArr.str ".svelte", StrOrArr.arr [".js", ".css"]⟩
    ".svelte" ".css" (by decide) (by decide) (by decide)

/-- Claim C2 (code divergence): when no plugin declares the URL lookup
extension as an output, the output table has no entry for that key at all
and urlToFile performs no singleton-list fallback: with a matching mount
entry, iterating the undefined lookup throws a TypeError instead of
attempting the same-named disk path. Requesting /dist/app.html with mount
dist/ to /dist/ and no plugins reproduces it. -/
theorem spec_C2_missing_fallback_typeError :
    urlToFile (fun _ => true) [] [("dist/", "/dist/")] "" "/dist/app.html" =
      .error (.typeError "extMap.output[expandedExt || baseExt] is not iterable") := by rfl

/-- Claim C3 (code divergence): a bare specifier with no protocol, no
mount match and no import-map entry does not produce the false sentinel:
line 76 of src/src/commands/import-resolver.ts reads the undeclared
identifier matchedDir, so the resolver throws a ReferenceError for every
non-protocol specifier instead of returning a value. -/
theorem spec_C3_unresolvable_throws :
    createImportResolver ⟨"src/index.js", "web_modules", some [], true, false, "/"⟩ "lodash" =
      .error (.referenceError "matchedDir") := by rfl

/-- Claim C4 counterexample: with two matching mount entries and the file
present under both, urlToFile returns the hit of the second entry even
though the first attempted path (which is also in lookups) exists, so the
returned locOnDisk is not the first attempted candidate that exists. -/
theorem spec_C4_counterexample :
    urlToFile (fun _ => true) [⟨"plugin-css", StrOrArr.str ".css", StrOrArr.str ".css"⟩]
        [("a/", "/"), ("b/", "/")] "" "/app.css" =
      .ok (some "b/app.css", ["a/app.css", "b/app.css"]) ∧
    (fun (_ : String) => true) "a/app.css" = true ∧
    some "b/app.css" ≠ some "a/app.css" :=
  ⟨by rfl, rfl, by decide⟩

/-- Claim C4 amended: when the lookup key maps to candidate extensions es,
urlToFile never errors; within each matching mount entry the attempted
paths are every non-existing candidate up to and including the first
existing one in candidate order, and the per-entry hit is that first
existing candidate; but across entries the returned locOnDisk is the hit
of the last matching entry that has one (the inner-loop break does not
leave the outer loop, so later entries overwrite), and lookups
concatenates the per-entry attempts in mount order. -/
theorem spec_C4_amended_last_match_wins (fsExists : String → Bool)
    (plugins : List SnowpackPlugin) (mountedDirs : List (String × String))
    (cwd url : String) (es : List String)
    (h : alistGet (lookupKeyOf url) (createPluginExtensionMap plugins).output = some es) :
    urlToFile fsExists plugins mountedDirs cwd url = .ok
      (((mountedDirs.filter (fun e => jsStartsWith url e.2)).filterMap
          (fun d => (candidatePaths cwd d.1 url es).find? fsExists)).getLast?,
       ((mountedDirs.filter (fun e => jsStartsWith url e.2)).map
          (fun d => (candidatePaths cwd d.1 url es).takeWhile (fun x => !fsExists x) ++
            ((candidatePaths cwd d.1 url es).find? fsExists).toList)).flatten) := by
  simp only [urlToFile]
  rw [h, urlToFileDirs_ok]
  simp only [tryExts_fst, tryExts_snd]

/-- Claim C4 witness: the amended behavior on the specification example:
requesting /dist/app.css with mount dist/ to /dist/, candidate extensions
[.css, .scss] and only the scss candidate on disk returns the scss path
and records both attempted paths. -/
theorem spec_C4_witness :
    alistGet (lookupKeyOf "/dist/app.css") (createPluginExtensionMap
        [⟨"plugin-sass", StrOrArr.str ".scss", StrOrArr.str ".css"⟩]).output =
      some [".css", ".scss"] ∧
    urlToFile (fun p => p == "dist/dist/app.scss")
        [⟨"plugin-sass", StrOrArr.str ".scss", StrOrArr.str ".css"⟩]
        [("dist/", "/dist/")] "" "/dist/app.css" =
      .ok (some "dist/dist/app.scss", ["dist/dist/app.css", "dist/dist/app.scss"]) :=
  ⟨by rfl,
    (spec_C4_amended_last_match_wins (fun p => p == "dist/dist/app.scss")
      [⟨"plugin-sass", StrOrArr.str ".scss", StrOrArr.str ".css"⟩]
      [("dist/", "/dist/")] "" "/dist/app.css" [".css", ".scss"] (by rfl)).trans (by rfl)⟩

/-- Claim C5 (code divergence): two build scripts naming the same
successfully loading plugin do not union their extension sets into one
descriptor: the second registration destructures
loadPlugins[pluginName], which is undefined, so loadPlugins throws a
TypeError instead. -/
theorem spec_C5_multi_script_union_throws :
    loadPlugins
        (fun n => if n = "my-plugin" then some ⟨"my-plugin", none, none, none⟩ else none)
        (fun _ => none)
        [("build:js", "my-plugin"), ("build:ts", "my-plugin")] [] =
      .error (.typeError
        "Cannot destructure property input of loadPlugins[pluginName] as it is undefined") := by rfl

/-- Claim C6 counterexample: a configuration with two bundle scripts whose
plugins both load is accepted without any conflict error; the second
bundler silently replaces the first. -/
theorem spec_C6_counterexample :
    loadPlugins
        (fun n => if n = "bundler-a" then some ⟨"bundler-a", none, none, none⟩
          else if n = "bundler-b" then some ⟨"bundler-b", none, none, none⟩ else none)
        (fun _ => none)
        [("bundle:a", "bundler-a"), ("bundle:b", "bundler-b")] [] =
      .ok ⟨[], some ⟨"bundler-b", none, none, none⟩, [], []⟩ := by rfl

/-- Claim C6 amended: a bundle script whose plugin fails to load is a
fatal configuration error, but more than one bundle script is not
detected: every successfully loading bundle script just overwrites the
bundler state, so the last one wins. -/
theorem spec_C6_amended_bundler (loader : String → Option RawPlugin)
    (st : ScriptsState) (target cmd : String) (h : (parseScript target).1 = "bundle") :
    (loader cmd = none →
      processScript loader st (target, cmd) = .error (.fatal ("Failed to load plugin \"" ++
        cmd ++ "\". Only installed Snowpack Plugins are supported for bundle:*"))) ∧
    (∀ b, loader cmd = some b →
      processScript loader st (target, cmd) =
        .ok { st with bundler := some (if b.name = "" then { b with name := cmd } else b) }) := by
  constructor
  · intro hl
    simp [processScript, h, hl]
  · intro b hl
    simp [processScript, h, hl]

/-- Claim C6 witness: both amended behaviors on the concrete script id
bundle:a, with a loader that fails and one that succeeds with a nameless
plugin (which then receives the command name). -/
theorem spec_C6_witness :
    (parseScript "bundle:a").1 = "bundle" ∧
    processScript (fun _ => none) ⟨[], [], [], none⟩ ("bundle:a", "bundler-a") =
      .error (.fatal
        "Failed to load plugin \"bundler-a\". Only installed Snowpack Plugins are supported for bundle:*") ∧
    processScript (fun _ => some ⟨"", none, none, none⟩) ⟨[], [], [], none⟩
        ("bundle:a", "bundler-a") =
      .ok ⟨[], [], [], some ⟨"bundler-a", none, none, none⟩⟩ :=
  ⟨by rfl,
    ((spec_C6_amended_bundler (fun _ => none) ⟨[], [], [], none⟩ "bundle:a" "bundler-a"
      (by rfl)).1 rfl).trans (by rfl),
    ((spec_C6_amended_bundler (fun _ => some ⟨"", none, none, none⟩) ⟨[], [], [], none⟩
      "bundle:a" "bundler-a" (by rfl)).2 ⟨"", none, none, none⟩ rfl).trans (by rfl)⟩

/-- Claim C7 (code divergence): the extensions parseScript records are not
dot-prefixed: for the id build:js,css,js it yields the deduplicated list
[js, css] without leading dots, because the transformation prepends a dot
and then its replace of a leading dot removes it again (contradicting the
function comment that it ensures preceding dots). -/
theorem spec_C7_extensions_lack_dot :
    parseScript "build:js,css,js" = ("build", ["js", "css"]) ∧
    jsStartsWith "js" "." = false ∧ jsStartsWith "css" "." = false :=
  ⟨by rfl, by rfl, by rfl⟩

/-- Claim C8 (code divergence): the proxy-suffix logic of lines 99-103 is
dead code: even for a bare specifier present in the dependency import map
with a non-js extension in non-bundled mode, the resolver throws the
matchedDir ReferenceError of line 76 before the import-map branch can
run, so no .proxy.js suffix is ever produced. -/
theorem spec_C8_proxy_branch_unreachable :
    createImportResolver
        ⟨"src/index.js", "web_modules", some [("lodash", "lodash.css")], true, false, "/"⟩
        "lodash" =
      .error (.referenceError "matchedDir") := by rfl

/-- Claim C9: for every plugin list and extension o declared as an output
by some plugin, the derived output[o] list starts with o itself;
consequently, for every URL whose lookup extension is o, urlToFile
succeeds and, for each matching mount entry, the first path attempted for
that entry is the candidate built from the URL with its own extension
(the same-named disk file), before any candidate derived from a plugin
input extension; the per-entry attempts appear contiguously inside the
returned lookups. -/
theorem spec_C9_identity_extension_first (plugins : List SnowpackPlugin)
    (p : SnowpackPlugin) (o : String) (hp : p ∈ plugins) (ho : o ∈ p.output.toList) :
    ∃ t, alistGet o (createPluginExtensionMap plugins).output = some (o :: t) ∧
      ∀ (fsExists : String → Bool) (mountedDirs : List (String × String)) (cwd url : String),
        lookupKeyOf url = o →
        ∀ d ∈ mountedDirs.filter (fun e => jsStartsWith url e.2),
          ∃ found lookups pre post,
            urlToFile fsExists plugins mountedDirs cwd url = .ok (found, lookups) ∧
            lookups = pre ++ (tryExts fsExists cwd d.1 url (o :: t)).2 ++ post ∧
            (tryExts fsExists cwd d.1 url (o :: t)).2.head? =
              some (pathJoin3 cwd d.1 (replaceExt url o)) := by
  obtain ⟨t, ht⟩ := createPluginExtensionMap_output_head plugins p hp ho
  refine ⟨t, ht, ?_⟩
  intro fsExists mountedDirs cwd url hkey d hd
  obtain ⟨s, t₂, hsplit⟩ := List.append_of_mem hd
  refine ⟨((mountedDirs.filter (fun e => jsStartsWith url e.2)).filterMap
      (fun d => (tryExts fsExists cwd d.1 url (o :: t)).1)).getLast?,
    ((mountedDirs.filter (fun e => jsStartsWith url e.2)).map
      (fun d => (tryExts fsExists cwd d.1 url (o :: t)).2)).flatten,
    (s.map (fun d => (tryExts fsExists cwd d.1 url (o :: t)).2)).flatten,
    (t₂.map (fun d => (tryExts fsExists cwd d.1 url (o :: t)).2)).flatten, ?_, ?_, ?_⟩
  · simp only [urlToFile]
    rw [hkey, ht]
    exact urlToFileDirs_ok fsExists cwd url (o :: t) _
  · rw [hsplit]
    simp [List.flatten_append, List.append_assoc]
  · exact tryExts_snd_head fsExists cwd d.1 url o t

/-- Claim C9 witness: the identity-first property on a concrete sass-style
plugin (input .scss, output .css). -/
theorem spec_C9_witness :
    (⟨"plugin-sass", StrOrArr.str ".scss", StrOrArr.str ".css"⟩ : SnowpackPlugin) ∈
      [(⟨"plugin-sass", StrOrArr.str ".scss", StrOrArr.str ".css"⟩ : SnowpackPlugin)] ∧
    ".css" ∈ (StrOrArr.str ".css").toList ∧
    ∃ t, alistGet ".css" (createPluginExtensionMap
        [⟨"plugin-sass", StrOrArr.str ".scss", StrOrArr.str ".css"⟩]).output =
        some (".css" :: t) ∧
      ∀ (fsExists : String → Bool) (mountedDirs : List (String × String)) (cwd url : String),
        lookupKeyOf url = ".css" →
        ∀ d ∈ mountedDirs.filter (fun e => jsStartsWith url e.2),
          ∃ found lookups pre post,
            urlToFile fsExists [⟨"plugin-sass", StrOrArr.str ".scss", StrOrArr.str ".css"⟩]
                mountedDirs cwd url = .ok (found, lookups) ∧
            lookups = pre ++ (tryExts fsExists cwd d.1 url (".css" :: t)).2 ++ post ∧
            (tryExts fsExists cwd d.1 url (".css" :: t)).2.head? =
              some (pathJoin3 cwd d.1 (replaceExt url ".css")) :=
  ⟨by decide, by decide,
    spec_C9_identity_extension_first
      [⟨"plugin-sass", StrOrArr.str ".scss", StrOrArr.str ".css"⟩]
      ⟨"plugin-sass", StrOrArr.str ".scss", StrOrArr.str ".css"⟩
      ".css" (by decide) (by decide)⟩

/-- Claim C10: whenever urlToFile returns with a present locOnDisk, that
path is an element of the returned lookups and satisfies the filesystem
existence oracle; whenever it returns with an absent locOnDisk, no path
in lookups exists. -/
theorem spec_C10_found_invariant (fsExists : String → Bool)
    (plugins : List SnowpackPlugin) (mountedDirs : List (String × String))
    (cwd url : String) (found : Option String) (lookups : List String)
    (h : urlToFile fsExists plugins mountedDirs cwd url = .ok (found, lookups)) :
    (∀ loc, found = some loc → loc ∈ lookups ∧ fsExists loc = true) ∧
    (found = none → ∀ l ∈ lookups, fsExists l = false) := by
  simp only [urlToFile] at h
  cases he : alistGet (lookupKeyOf url) (createPluginExtensionMap plugins).output with
  | none =>
    rw [he] at h
    cases hd : mountedDirs.filter (fun e => jsStartsWith url e.2) with
    | nil =>
      rw [hd] at h
      simp only [urlToFileDirs, Except.ok.injEq, Prod.mk.injEq] at h
      obtain ⟨rfl, rfl⟩ := h
      exact ⟨fun loc hl => by simp at hl, fun _ => by simp⟩
    | cons d rest =>
      obtain ⟨fromDisk, toUrl⟩ := d
      rw [hd] at h
      simp [urlToFileDirs] at h
  | some es =>
    rw [he] at h
    exact urlToFileDirs_invariant fsExists cwd url es _ found lookups h

/-- Claim C10 witness: the invariant evaluated where nothing exists on
disk: locOnDisk is absent and every recorded lookup fails the oracle. -/
theorem spec_C10_witness :
    (∀ loc, (none : Option String) = some loc →
      loc ∈ ["dist/dist/app.css", "dist/dist/app.scss"] ∧ (fun (_ : String) => false) loc = true) ∧
    ((none : Option String) = none →
      ∀ l ∈ ["dist/dist/app.css", "dist/dist/app.scss"], (fun (_ : String) => false) l = false) :=
  spec_C10_found_invariant (fun _ => false)
    [⟨"plugin-sass", StrOrArr.str ".scss", StrOrArr.str ".css"⟩]
    [("dist/", "/dist/")] "" "/dist/app.css" none
    ["dist/dist/app.css", "dist/dist/app.scss"] (by rfl)

end Snowpack
